import Mathlib

/-!
Verification of the trajectory augmentation algorithm of the
`person_counting` repository (`src/data_generators/trajectory_augmentation.py`).

The grid (a pandas DataFrame of floats in the source) is modelled as a list of
rows of rationals; `df.shape[0]` is the number of rows, `df.shape[1]` the
length of the first row.  Scalar `df.iloc` reads and writes are modelled as
fallible operations (`Except`) that mirror pandas' `IndexError` on an index
outside `[0, n)`; all positions the algorithm passes to them are nonnegative,
so Python's negative-index wrapping is never exercised.  Float values are
modelled as exact rationals; the detection threshold `0.1` is `1/10`.

Randomness (`random.sample`, `random.shuffle`, and the per-iteration
`random.sample(directions, 1)[0]` draw) is modelled by an explicit oracle
`Rng` supplied by the caller: `sampleChoice` gives the result of
`random.sample(population, k)` once the size check passed, `shuffleFn` the
result of `random.shuffle`, and `draw t` the index into `directions` chosen by
the `t`-th single-element draw of the call.  `Rng.Wf` states exactly the
guarantees the Python library provides (a sample of the requested size, drawn
from the population, without replacement; a shuffle is a permutation).
`pySample` reproduces `random.sample`'s `ValueError` on a negative size or a
size larger than the population.
-/

namespace PersonCounting

abbrev Coord := ℤ × ℤ

abbrev Grid := List (List ℚ)

/-- Row count `df.shape[0]`. -/
def rows (g : Grid) : ℕ := g.length

/-- Column count `df.shape[1]` (the length of the frame's first row). -/
def cols (g : Grid) : ℕ := (g.headD []).length

/-- Read the cell at row `r`, column `c` (defaulting to `0` out of range;
in-range reads never hit the default). -/
def getCell (g : Grid) (r c : ℕ) : ℚ := (g.getD r []).getD c 0

/-- Write the cell at row `r`, column `c` (a no-op out of range; the fallible
wrapper `ilocSet` below rejects out-of-range writes before reaching it). -/
def setCell (g : Grid) (r c : ℕ) (v : ℚ) : Grid := g.set r ((g.getD r []).set c v)

/-- Python-level bounds test for positional scalar access `df.iloc[p]`. -/
def inRangeB (g : Grid) (p : Coord) : Bool :=
  0 ≤ p.1 && p.1 < (rows g : ℤ) && 0 ≤ p.2 && p.2 < (cols g : ℤ)

/-- Scalar read `df.iloc[p]`: `IndexError` outside the valid range. -/
def ilocGet (g : Grid) (p : Coord) : Except String ℚ :=
  if inRangeB g p then .ok (getCell g p.1.toNat p.2.toNat) else .error "IndexError"

/-- Scalar write `df.iloc[p] = v`: `IndexError` outside the valid range. -/
def ilocSet (g : Grid) (p : Coord) (v : ℚ) : Except String Grid :=
  if inRangeB g p then .ok (setCell g p.1.toNat p.2.toNat v) else .error "IndexError"

/-- The detection threshold `0.1`. -/
def detThreshold : ℚ := 1/10

/-- Function `get_indices_detections(df)`: the row-major list of coordinates
whose value is strictly above `0.1`. -/
def get_indices_detections (g : Grid) : List Coord :=
  (List.range (rows g)).flatMap fun i =>
    (List.range (cols g)).filterMap fun j =>
      if detThreshold < getCell g i j then some ((i : ℤ), (j : ℤ)) else none

/-- The direction list `[(0, -1), (0, 1), (1, 0), (-1, 0)]`. -/
def directions : List Coord := [(0, -1), (0, 1), (1, 0), (-1, 0)]

/-- Function `move_pixel(df, old_dest, new_dest)`: save the source value,
zero the source, write the saved value at the destination. -/
def move_pixel (g : Grid) (old nw : Coord) : Except String Grid :=
  match ilocGet g old with
  | .error e => .error e
  | .ok save =>
    match ilocSet g old 0 with
    | .error e => .error e
    | .ok g1 => ilocSet g1 nw save

/-- The loop body of `get_destination`: `fuel` remaining iterations of
`for _ in range(len(directions))`, `t` the index of the next direction draw.
An iteration draws a direction, skips it (`continue`) when the candidate
fails the source's bounds test `new_pos[0] < 0 or new_pos[0] > df.shape[0]
or new_pos[1] < 0 or new_pos[1] > df.shape[1]` (note the strict `>`, which
lets through a coordinate equal to the row or column count), returns the
candidate
when it is not in `indices`, and otherwise goes on to the next iteration.
Returns the source when the iterations are exhausted, together with the
number of draws consumed. -/
def get_destination_go (g : Grid) (old : Coord) (indices : List Coord)
    (draw : ℕ → Fin 4) : ℕ → ℕ → Coord × ℕ
  | 0, t => (old, t)
  | fuel + 1, t =>
    let d := directions.getD (draw t).val (0, 0)
    let np : Coord := (old.1 + d.1, old.2 + d.2)
    if np.1 < 0 ∨ (rows g : ℤ) < np.1 ∨ np.2 < 0 ∨ (cols g : ℤ) < np.2 then
      get_destination_go g old indices draw fuel (t + 1)
    else if np ∈ indices then
      get_destination_go g old indices draw fuel (t + 1)
    else
      (np, t + 1)

/-- Function `get_destination(df, old_position, indices)`, with the draw
oracle and the current draw counter made explicit. -/
def get_destination (g : Grid) (old : Coord) (indices : List Coord)
    (draw : ℕ → Fin 4) (t : ℕ) : Coord × ℕ :=
  get_destination_go g old indices draw directions.length t

/-- The random choices consumed by one `augment_trajectory` call. -/
structure Rng where
  sampleChoice : List Coord → ℕ → List Coord
  shuffleFn : List Coord → List Coord
  draw : ℕ → Fin 4

/-- The guarantees Python's `random` module provides for those choices. -/
structure Rng.Wf (r : Rng) : Prop where
  length_sampleChoice : ∀ l k, k ≤ l.length → (r.sampleChoice l k).length = k
  mem_sampleChoice : ∀ l k x, k ≤ l.length → x ∈ r.sampleChoice l k → x ∈ l
  nodup_sampleChoice : ∀ l k, k ≤ l.length → l.Nodup → (r.sampleChoice l k).Nodup
  perm_shuffleFn : ∀ l, List.Perm (r.shuffleFn l) l

/-- Call `random.sample(l, k)`: `ValueError` when `k` is negative or exceeds
the population size, otherwise the oracle's choice. -/
def pySample (pick : List Coord → ℕ → List Coord) (l : List Coord) (k : ℤ) :
    Except String (List Coord) :=
  if k < 0 ∨ (l.length : ℤ) < k then .error "ValueError" else .ok (pick l k.toNat)

/-- The `for index_tuple in indices_sampled` loop of `augment_trajectory`,
threading the grid and the draw counter and recording the applied
`(source, destination)` pairs as a ghost trace. -/
def augment_loop (indices : List Coord) (draw : ℕ → Fin 4) :
    List Coord → Grid → ℕ → Except String (Grid × List (Coord × Coord))
  | [], g, _ => .ok (g, [])
  | c :: rest, g, t =>
    let p := get_destination g c indices draw t
    match move_pixel g c p.1 with
    | .error e => .error e
    | .ok g1 =>
      match augment_loop indices draw rest g1 p.2 with
      | .error e => .error e
      | .ok (g2, tr) => .ok (g2, (c, p.1) :: tr)

/-- Function `augment_trajectory(df, aug_factor)` together with its ghost
relocation trace: build the detection list, sample
`ceil(len(indices) * aug_factor)` of its coordinates, shuffle them, then move
each in turn. -/
def augment_run (g : Grid) (factor : ℚ) (rng : Rng) :
    Except String (Grid × List (Coord × Coord)) :=
  let indices := get_indices_detections g
  match pySample rng.sampleChoice indices ⌈(indices.length : ℚ) * factor⌉ with
  | .error e => .error e
  | .ok sampled => augment_loop indices rng.draw (rng.shuffleFn sampled) g 0

/-- Function `augment_trajectory(df, aug_factor)`: the returned grid. -/
def augment_trajectory (g : Grid) (factor : ℚ) (rng : Rng) : Except String Grid :=
  (augment_run g factor rng).map Prod.fst

/-- Total of all cell values (the spec's `sum(grid)`). -/
def gridSum (g : Grid) : ℚ := (g.map List.sum).sum

/-- Number of cells strictly above the detection threshold. -/
def detCount (g : Grid) : ℕ :=
  (g.map fun row => row.countP fun v => decide (detThreshold < v)).sum

/-- Rectangularity: every row has the frame's column count (true of every
pandas DataFrame). -/
def Rect (g : Grid) : Prop := ∀ row ∈ g, row.length = cols g

/-- All cell values nonnegative. -/
def Nonneg (g : Grid) : Prop := ∀ row ∈ g, ∀ v ∈ row, 0 ≤ v

/-- An `Rng` whose sample takes the first `k` population elements, whose
shuffle is the identity, and whose direction draws follow `d`; this realises
one concrete admissible behavior of Python's seeded `random` module. -/
def mkRng (d : ℕ → Fin 4) : Rng := ⟨fun l k => l.take k, id, d⟩

/-- Draw stream that always picks direction index 1, i.e. `(0, 1)` (right). -/
def rngRight : Rng := mkRng fun _ => 1

/-- Draw stream that always picks direction index 0, i.e. `(0, -1)` (left). -/
def rngLeft : Rng := mkRng fun _ => 0

/-- Draw stream whose first draw is direction `(0, 1)` and whose later draws
are `(0, -1)`: it steers two opposite sources into the same middle cell. -/
def rngCollide : Rng := mkRng fun t => if t = 0 then 1 else 0

theorem mkRng_wf (d : ℕ → Fin 4) : (mkRng d).Wf := by
  refine ⟨?_, ?_, ?_, ?_⟩
  · intro l k hk
    simp [mkRng, List.length_take]
    omega
  · intro l k x _ hx
    exact List.take_subset _ _ hx
  · intro l k _ h
    exact h.sublist (List.take_sublist _ _)
  · intro l
    exact List.Perm.refl l

theorem getD_set_ne {α : Type} (l : List α) (i j : ℕ) (v d : α) (h : i ≠ j) :
    (l.set i v).getD j d = l.getD j d := by
  simp [List.getD_eq_getElem?_getD, List.getElem?_set_ne h]

theorem getCell_setCell_ne (g : Grid) (a b r c : ℕ) (v : ℚ)
    (h : r ≠ a ∨ c ≠ b) : getCell (setCell g a b v) r c = getCell g r c := by
  unfold getCell setCell
  by_cases hr : r = a
  · subst hr
    have hc : c ≠ b := h.resolve_left (by simp)
    simp only [List.getD_eq_getElem?_getD]
    rw [List.getElem?_set_self']
    cases hget : g[r]? with
    | none => simp
    | some row => simp [hget, List.getElem?_set_ne (Ne.symm hc)]
  · rw [getD_set_ne _ _ _ _ _ (fun hh => hr hh.symm)]

theorem ilocGet_ok {g : Grid} {p : Coord} {v : ℚ}
    (h : ilocGet g p = .ok v) :
    inRangeB g p = true ∧ v = getCell g p.1.toNat p.2.toNat := by
  unfold ilocGet at h
  split at h
  · next hin => cases h; exact ⟨hin, rfl⟩
  · cases h

theorem ilocSet_ok {g g' : Grid} {p : Coord} {v : ℚ}
    (h : ilocSet g p v = .ok g') :
    inRangeB g p = true ∧ g' = setCell g p.1.toNat p.2.toNat v := by
  unfold ilocSet at h
  split at h
  · next hin => cases h; exact ⟨hin, rfl⟩
  · cases h

theorem move_pixel_ok {g g' : Grid} {old nw : Coord}
    (h : move_pixel g old nw = .ok g') :
    inRangeB g old = true ∧
    inRangeB (setCell g old.1.toNat old.2.toNat 0) nw = true ∧
    g' = setCell (setCell g old.1.toNat old.2.toNat 0) nw.1.toNat nw.2.toNat
      (getCell g old.1.toNat old.2.toNat) := by
  unfold move_pixel at h
  cases hg : ilocGet g old with
  | error e => simp [hg] at h
  | ok save =>
    simp only [hg] at h
    cases hs1 : ilocSet g old 0 with
    | error e => simp [hs1] at h
    | ok g1 =>
      simp only [hs1] at h
      obtain ⟨hin1, hv⟩ := ilocGet_ok hg
      obtain ⟨_, hg1⟩ := ilocSet_ok hs1
      obtain ⟨hin2, hg'⟩ := ilocSet_ok h
      subst hv hg1
      exact ⟨hin1, hin2, hg'⟩

theorem inRangeB_elim {g : Grid} {p : Coord} (h : inRangeB g p = true) :
    0 ≤ p.1 ∧ p.1 < (rows g : ℤ) ∧ 0 ≤ p.2 ∧ p.2 < (cols g : ℤ) := by
  simp only [inRangeB, Bool.and_eq_true, decide_eq_true_eq] at h
  tauto

theorem ne_toNat_of_ne {p : Coord} {r c : ℕ}
    (hnn : 0 ≤ p.1 ∧ 0 ≤ p.2) (h : ((r : ℤ), (c : ℤ)) ≠ p) :
    r ≠ p.1.toNat ∨ c ≠ p.2.toNat := by
  by_contra hcon
  push_neg at hcon
  apply h
  obtain ⟨h1, h2⟩ := hcon
  have e1 : (r : ℤ) = p.1 := by rw [h1, Int.toNat_of_nonneg hnn.1]
  have e2 : (c : ℤ) = p.2 := by rw [h2, Int.toNat_of_nonneg hnn.2]
  rw [Prod.ext_iff]
  exact ⟨e1, e2⟩

theorem move_pixel_frame {g g' : Grid} {old nw : Coord}
    (h : move_pixel g old nw = .ok g') (r c : ℕ)
    (ho : ((r : ℤ), (c : ℤ)) ≠ old) (hn : ((r : ℤ), (c : ℤ)) ≠ nw) :
    getCell g' r c = getCell g r c := by
  obtain ⟨hin1, hin2, hg'⟩ := move_pixel_ok h
  obtain ⟨h1, _, h2, _⟩ := inRangeB_elim hin1
  obtain ⟨h3, _, h4, _⟩ := inRangeB_elim hin2
  subst hg'
  rw [getCell_setCell_ne _ _ _ _ _ _ (ne_toNat_of_ne ⟨h3, h4⟩ hn),
      getCell_setCell_ne _ _ _ _ _ _ (ne_toNat_of_ne ⟨h1, h2⟩ ho)]

theorem countP_set_eq (l : List ℚ) (p : ℚ → Bool) :
    ∀ (i : ℕ) (v : ℚ), i < l.length →
    (l.set i v).countP p + (if p (l.getD i 0) = true then 1 else 0) =
      l.countP p + (if p v = true then 1 else 0) := by
  induction l with
  | nil => intro i v h; cases h
  | cons a l ih =>
    intro i v h
    cases i with
    | zero =>
      simp [List.countP_cons]
      split_ifs <;> omega
    | succ n =>
      simp only [List.set_cons_succ, List.countP_cons, List.getD_cons_succ]
      have := ih n v (by simpa using h)
      split_ifs at this ⊢ <;> omega

theorem sum_set_eq (l : List ℚ) :
    ∀ (i : ℕ) (v : ℚ), i < l.length →
    (l.set i v).sum + l.getD i 0 = l.sum + v := by
  induction l with
  | nil => intro i v h; cases h
  | cons a l ih =>
    intro i v h
    cases i with
    | zero => simp [List.sum_cons]; ring
    | succ n =>
      simp only [List.set_cons_succ, List.sum_cons, List.getD_cons_succ]
      have := ih n v (by simpa using h)
      linarith

theorem detCount_cons (row : List ℚ) (g : Grid) :
    detCount (row :: g) =
      row.countP (fun v => decide (detThreshold < v)) + detCount g := by
  simp [detCount]

theorem gridSum_cons (row : List ℚ) (g : Grid) :
    gridSum (row :: g) = row.sum + gridSum g := by
  simp [gridSum]

theorem detCount_setCell (g : Grid) :
    ∀ (r c : ℕ) (v : ℚ), r < g.length → c < (g.getD r []).length →
    detCount (setCell g r c v) +
      (if detThreshold < getCell g r c then 1 else 0) =
    detCount g + (if detThreshold < v then 1 else 0) := by
  induction g with
  | nil => intro r c v hr _; cases hr
  | cons row g ih =>
    intro r c v hr hc
    cases r with
    | zero =>
      simp only [setCell, List.getD_cons_zero, List.set_cons_zero,
        detCount_cons, getCell]
      have := countP_set_eq row (fun v => decide (detThreshold < v)) c v
        (by simpa using hc)
      simp only [decide_eq_true_eq] at this
      split_ifs at this ⊢ <;> omega
    | succ n =>
      have hsc : setCell (row :: g) (n + 1) c v = row :: setCell g n c v := by
        simp [setCell]
      rw [hsc]
      simp only [detCount_cons, getCell, List.getD_cons_succ]
      have := ih n c v (by simpa using hr) (by simpa using hc)
      simp only [getCell] at this
      split_ifs at this ⊢ <;> omega

theorem gridSum_setCell (g : Grid) :
    ∀ (r c : ℕ) (v : ℚ), r < g.length → c < (g.getD r []).length →
    gridSum (setCell g r c v) + getCell g r c = gridSum g + v := by
  induction g with
  | nil => intro r c v hr _; cases hr
  | cons row g ih =>
    intro r c v hr hc
    cases r with
    | zero =>
      simp only [setCell, List.getD_cons_zero, List.set_cons_zero,
        gridSum_cons, getCell]
      have := sum_set_eq row c v (by simpa using hc)
      linarith
    | succ n =>
      have hsc : setCell (row :: g) (n + 1) c v = row :: setCell g n c v := by
        simp [setCell]
      rw [hsc]
      simp only [gridSum_cons, getCell, List.getD_cons_succ]
      have := ih n c v (by simpa using hr) (by simpa using hc)
      simp only [getCell] at this
      linarith

theorem rows_setCell (g : Grid) (r c : ℕ) (v : ℚ) :
    rows (setCell g r c v) = rows g := by
  simp [rows, setCell]

theorem cols_setCell (g : Grid) (r c : ℕ) (v : ℚ) :
    cols (setCell g r c v) = cols g := by
  cases g with
  | nil => simp [setCell]
  | cons row g =>
    cases r with
    | zero => simp [setCell, cols]
    | succ n => simp [setCell, cols]

theorem getD_mem (g : Grid) (r : ℕ) (h : r < g.length) : g.getD r [] ∈ g := by
  rw [List.getD_eq_getElem?_getD, List.getElem?_eq_getElem h]
  exact List.getElem_mem h

theorem rect_setCell {g : Grid} (r c : ℕ) (v : ℚ) (hr : r < g.length)
    (hg : Rect g) : Rect (setCell g r c v) := by
  intro row hrow
  rw [cols_setCell]
  unfold setCell at hrow
  rcases List.mem_or_eq_of_mem_set hrow with hmem | heq
  · exact hg row hmem
  · rw [heq, List.length_set]
    exact hg _ (getD_mem g r hr)

theorem nonneg_setCell {g : Grid} (r c : ℕ) {v : ℚ} (hr : r < g.length)
    (hv : 0 ≤ v) (hg : Nonneg g) : Nonneg (setCell g r c v) := by
  intro row hrow w hw
  unfold setCell at hrow
  rcases List.mem_or_eq_of_mem_set hrow with hmem | heq
  · exact hg row hmem w hw
  · subst heq
    rcases List.mem_or_eq_of_mem_set hw with hmem2 | heq2
    · exact hg _ (getD_mem g r hr) w hmem2
    · rw [heq2]; exact hv

theorem getCell_nonneg {g : Grid} (hg : Nonneg g) (r c : ℕ) :
    0 ≤ getCell g r c := by
  unfold getCell
  simp only [List.getD_eq_getElem?_getD]
  cases hrow : g[r]? with
  | none => simp [hrow]
  | some row =>
    simp only [hrow, Option.getD_some]
    cases hw : row[c]? with
    | none => simp [hw]
    | some w =>
      simp only [hw, Option.getD_some]
      exact hg row (List.getElem?_mem hrow) w (List.getElem?_mem hw)

theorem move_pixel_step {g g' : Grid} {old nw : Coord}
    (hrect : Rect g) (h : move_pixel g old nw = .ok g') :
    Rect g' ∧ detCount g' ≤ detCount g ∧
    (Nonneg g → Nonneg g' ∧ gridSum g' ≤ gridSum g) := by
  obtain ⟨hin1, hin2, hg'⟩ := move_pixel_ok h
  obtain ⟨ho1, ho2, ho3, ho4⟩ := inRangeB_elim hin1
  obtain ⟨hn1, hn2, hn3, hn4⟩ := inRangeB_elim hin2
  have hrows : rows g = g.length := rfl
  have hr1 : old.1.toNat < g.length := by omega
  have hc1 : old.2.toNat < (g.getD old.1.toNat []).length := by
    have hcols : (g.getD old.1.toNat []).length = cols g :=
      hrect _ (getD_mem g _ hr1)
    omega
  have hrect1 : Rect (setCell g old.1.toNat old.2.toNat 0) :=
    rect_setCell _ _ _ hr1 hrect
  have hrows1 : rows (setCell g old.1.toNat old.2.toNat 0) =
      (setCell g old.1.toNat old.2.toNat 0).length := rfl
  have hr2 : nw.1.toNat < (setCell g old.1.toNat old.2.toNat 0).length := by
    omega
  have hc2 : nw.2.toNat <
      ((setCell g old.1.toNat old.2.toNat 0).getD nw.1.toNat []).length := by
    have hcols1 : ((setCell g old.1.toNat old.2.toNat 0).getD nw.1.toNat
        []).length = cols (setCell g old.1.toNat old.2.toNat 0) :=
      hrect1 _ (getD_mem _ _ hr2)
    omega
  have e1 := detCount_setCell g old.1.toNat old.2.toNat 0 hr1 hc1
  have e2 := detCount_setCell (setCell g old.1.toNat old.2.toNat 0)
    nw.1.toNat nw.2.toNat (getCell g old.1.toNat old.2.toNat) hr2 hc2
  have hz : ¬ (detThreshold < (0 : ℚ)) := by norm_num [detThreshold]
  rw [if_neg hz] at e1
  subst hg'
  refine ⟨rect_setCell _ _ _ hr2 hrect1, ?_, ?_⟩
  · split_ifs at e1 e2 <;> omega
  · intro hnn
    have hnn1 : Nonneg (setCell g old.1.toNat old.2.toNat 0) :=
      nonneg_setCell _ _ hr1 le_rfl hnn
    have s1 := gridSum_setCell g old.1.toNat old.2.toNat 0 hr1 hc1
    have s2 := gridSum_setCell (setCell g old.1.toNat old.2.toNat 0)
      nw.1.toNat nw.2.toNat (getCell g old.1.toNat old.2.toNat) hr2 hc2
    have hpos : 0 ≤ getCell (setCell g old.1.toNat old.2.toNat 0)
        nw.1.toNat nw.2.toNat := getCell_nonneg hnn1 _ _
    have hsave : 0 ≤ getCell g old.1.toNat old.2.toNat := getCell_nonneg hnn _ _
    exact ⟨nonneg_setCell _ _ hr2 hsave hnn1, by linarith⟩

theorem augment_loop_conserve (idx : List Coord) (draw : ℕ → Fin 4) :
    ∀ (srcs : List Coord) (g : Grid) (t : ℕ) (g' : Grid)
      (tr : List (Coord × Coord)),
    augment_loop idx draw srcs g t = .ok (g', tr) → Rect g →
    Rect g' ∧ detCount g' ≤ detCount g ∧
    (Nonneg g → Nonneg g' ∧ gridSum g' ≤ gridSum g) := by
  intro srcs
  induction srcs with
  | nil =>
    intro g t g' tr h hrect
    simp only [augment_loop, Except.ok.injEq, Prod.mk.injEq] at h
    rw [← h.1]
    exact ⟨hrect, le_rfl, fun hn => ⟨hn, le_rfl⟩⟩
  | cons s rest ih =>
    intro g t g' tr h hrect
    cases hmv : move_pixel g s (get_destination g s idx draw t).1 with
    | error e => simp [augment_loop, hmv] at h
    | ok g1 =>
      cases hl : augment_loop idx draw rest g1
          (get_destination g s idx draw t).2 with
      | error e2 => simp [augment_loop, hmv, hl] at h
      | ok p2 =>
        obtain ⟨g2, tr2⟩ := p2
        simp only [augment_loop, hmv, hl, Except.ok.injEq, Prod.mk.injEq] at h
        obtain ⟨hg2, htr⟩ := h
        subst hg2
        obtain ⟨hrect1, hcnt1, hsum1⟩ := move_pixel_step hrect hmv
        obtain ⟨hrect2, hcnt2, hsum2⟩ := ih g1 _ _ tr2 hl hrect1
        refine ⟨hrect2, le_trans hcnt2 hcnt1, fun hnn => ?_⟩
        obtain ⟨hnn1, hs1⟩ := hsum1 hnn
        obtain ⟨hnn2, hs2⟩ := hsum2 hnn1
        exact ⟨hnn2, le_trans hs2 hs1⟩

theorem get_destination_go_spec (g : Grid) (old : Coord) (idx : List Coord)
    (draw : ℕ → Fin 4) : ∀ fuel t,
    (get_destination_go g old idx draw fuel t).1 = old ∨
    (get_destination_go g old idx draw fuel t).1 ∉ idx := by
  intro fuel
  induction fuel with
  | zero => intro t; exact Or.inl rfl
  | succ n ih =>
    intro t
    simp only [get_destination_go]
    split
    · exact ih (t + 1)
    · split
      · exact ih (t + 1)
      · next hmem => exact Or.inr hmem

theorem augment_loop_dest_spec (idx : List Coord) (draw : ℕ → Fin 4) :
    ∀ (srcs : List Coord) (g : Grid) (t : ℕ) (g' : Grid)
      (tr : List (Coord × Coord)),
    augment_loop idx draw srcs g t = .ok (g', tr) →
    ∀ q ∈ tr, q.2 = q.1 ∨ q.2 ∉ idx := by
  intro srcs
  induction srcs with
  | nil =>
    intro g t g' tr h q hq
    simp only [augment_loop, Except.ok.injEq, Prod.mk.injEq] at h
    rw [← h.2] at hq
    cases hq
  | cons c rest ih =>
    intro g t g' tr h q hq
    cases hmv : move_pixel g c (get_destination g c idx draw t).1 with
    | error e => simp [augment_loop, hmv] at h
    | ok g1 =>
      cases hl : augment_loop idx draw rest g1
          (get_destination g c idx draw t).2 with
      | error e2 => simp [augment_loop, hmv, hl] at h
      | ok p2 =>
        obtain ⟨g2, tr2⟩ := p2
        simp only [augment_loop, hmv, hl, Except.ok.injEq, Prod.mk.injEq] at h
        rw [← h.2] at hq
        rcases List.mem_cons.mp hq with hq1 | hq2
        · subst hq1
          exact get_destination_go_spec g c idx draw directions.length t
        · exact ih g1 _ g2 tr2 hl q hq2

theorem augment_loop_frame (idx : List Coord) (draw : ℕ → Fin 4) :
    ∀ (srcs : List Coord) (g : Grid) (t : ℕ) (g' : Grid)
      (tr : List (Coord × Coord)),
    augment_loop idx draw srcs g t = .ok (g', tr) →
    ∀ r c : ℕ,
    (∀ q ∈ tr, q.1 ≠ ((r : ℤ), (c : ℤ)) ∧ q.2 ≠ ((r : ℤ), (c : ℤ))) →
    getCell g' r c = getCell g r c := by
  intro srcs
  induction srcs with
  | nil =>
    intro g t g' tr h r c hq
    simp only [augment_loop, Except.ok.injEq, Prod.mk.injEq] at h
    rw [← h.1]
  | cons s rest ih =>
    intro g t g' tr h r c hq
    cases hmv : move_pixel g s (get_destination g s idx draw t).1 with
    | error e => simp [augment_loop, hmv] at h
    | ok g1 =>
      cases hl : augment_loop idx draw rest g1
          (get_destination g s idx draw t).2 with
      | error e2 => simp [augment_loop, hmv, hl] at h
      | ok p2 =>
        obtain ⟨g2, tr2⟩ := p2
        simp only [augment_loop, hmv, hl, Except.ok.injEq, Prod.mk.injEq] at h
        obtain ⟨hg2, htr⟩ := h
        subst hg2
        rw [← htr] at hq
        have hhead := hq (s, (get_destination g s idx draw t).1)
          (List.mem_cons_self _ _)
        have htail : ∀ q ∈ tr2,
            q.1 ≠ ((r : ℤ), (c : ℤ)) ∧ q.2 ≠ ((r : ℤ), (c : ℤ)) :=
          fun q hqq => hq q (List.mem_cons_of_mem _ hqq)
        rw [ih g1 _ g2 tr2 hl r c htail,
            move_pixel_frame hmv r c (Ne.symm hhead.1) (Ne.symm hhead.2)]

/-- C1: the claim asserts that every applied relocation's destination lies in
`[0, rows-1] × [0, cols-1]` and that no index-out-of-range fault occurs,
because `get_destination` rejects candidates whose row equals the row count or
whose column equals the column count.  The code's bounds test uses the strict
comparisons `new_pos[0] > df.shape[0]` / `new_pos[1] > df.shape[1]`, so a
candidate exactly one past the last valid index is accepted: on the 1×1 grid
`[[1.0]]` with factor 1 and a draw stream that picks direction `(0, 1)`, the
single detection at `(0, 0)` is relocated to `(0, 1)` — column equal to the
column count — and the write faults with an `IndexError`. -/
theorem c1_destination_out_of_range_fault :
    rngRight.Wf ∧
    augment_trajectory [[(1 : ℚ)]] 1 rngRight = .error "IndexError" := by
  refine ⟨mkRng_wf _, ?_⟩
  norm_num [augment_trajectory, augment_run, get_indices_detections, pySample,
    augment_loop, get_destination, get_destination_go, move_pixel, ilocGet,
    ilocSet, inRangeB, getCell, setCell, rows, cols, detThreshold, directions,
    mkRng, rngRight, List.range_succ, List.filterMap_cons, Except.map]

/-- C2 counterexample: on the 1×2 grid `[[1, 0.05]]` with factor 1, the
detection at `(0, 0)` is relocated onto the in-bounds empty cell `(0, 1)`,
whose previous value `0.05` is overwritten and lost: the output sum `1`
differs from the input sum `1.05`, refuting exact conservation of mass. -/
theorem c2_sum_not_preserved_cex :
    rngRight.Wf ∧
    augment_trajectory [[(1 : ℚ), 1/20]] 1 rngRight = .ok [[0, 1]] ∧
    gridSum [[(0 : ℚ), 1]] ≠ gridSum [[(1 : ℚ), 1/20]] := by
  refine ⟨mkRng_wf _, ?_, ?_⟩
  · norm_num [augment_trajectory, augment_run, get_indices_detections, pySample,
      augment_loop, get_destination, get_destination_go, move_pixel, ilocGet,
      ilocSet, inRangeB, getCell, setCell, rows, cols, detThreshold, directions,
      mkRng, rngRight, List.range_succ, List.filterMap_cons, Except.map]
  · norm_num [gridSum]

/-- C2 amended: the total is not conserved exactly — each applied relocation
overwrites (and so destroys) its destination cell's previous value.  What
holds instead is that mass is never created: for every rectangular grid with
nonnegative entries, every factor, and every random stream, a successful
`augment_trajectory` call returns a grid whose total sum is at most the input
sum (equality exactly when each applied move lands on a currently-zero cell
or stays put). -/
theorem c2_sum_nonincreasing (g : Grid) (f : ℚ) (rng : Rng) (g' : Grid)
    (hrect : Rect g) (hnn : Nonneg g)
    (h : augment_trajectory g f rng = .ok g') :
    gridSum g' ≤ gridSum g := by
  unfold augment_trajectory at h
  cases hrun : augment_run g f rng with
  | error e => rw [hrun] at h; simp [Except.map] at h
  | ok p =>
    rw [hrun] at h
    obtain ⟨g2, tr⟩ := p
    simp only [Except.map, Except.ok.injEq] at h
    subst h
    simp only [augment_run] at hrun
    cases hs : pySample rng.sampleChoice (get_indices_detections g)
        ⌈((get_indices_detections g).length : ℚ) * f⌉ with
    | error e => simp [hs] at hrun
    | ok sampled =>
      simp only [hs] at hrun
      exact (((augment_loop_conserve _ _ _ _ _ _ _ hrun hrect).2.2) hnn).2

/-- C2 amended, witness: the sum bound applied to the concrete run on
`[[1, 0], [0, 0]]` with factor 1. -/
theorem c2_sum_nonincreasing_wit :
    gridSum [[(0 : ℚ), 1], [0, 0]] ≤ gridSum [[(1 : ℚ), 0], [0, 0]] := by
  have hok : augment_trajectory [[(1 : ℚ), 0], [0, 0]] 1 rngRight =
      .ok [[0, 1], [0, 0]] := by
    norm_num [augment_trajectory, augment_run, get_indices_detections, pySample,
      augment_loop, get_destination, get_destination_go, move_pixel, ilocGet,
      ilocSet, inRangeB, getCell, setCell, rows, cols, detThreshold, directions,
      mkRng, rngRight, List.range_succ, List.filterMap_cons, Except.map]
  exact c2_sum_nonincreasing [[(1 : ℚ), 0], [0, 0]] 1 rngRight
    [[(0 : ℚ), 1], [0, 0]] (by unfold Rect; decide) (by unfold Nonneg; decide)
    hok

/-- C3 counterexample: on `[[0.5, 0, 0.5]]` with factor 1, both detections are
sampled and both are steered onto the middle cell `(0, 1)` (the occupancy test
consults only the static initial detection list, which does not contain
`(0, 1)`); the second move overwrites the first, and the detection count drops
from 2 to 1. -/
theorem c3_detCount_not_preserved_cex :
    rngCollide.Wf ∧
    augment_trajectory [[(1 : ℚ)/2, 0, 1/2]] 1 rngCollide = .ok [[0, 1/2, 0]] ∧
    detCount [[(0 : ℚ), 1/2, 0]] = 1 ∧
    detCount [[(1 : ℚ)/2, 0, 1/2]] = 2 := by
  have h2 : Int.toNat 2 = 2 := by decide
  refine ⟨mkRng_wf _, ?_, ?_, ?_⟩
  · norm_num [augment_trajectory, augment_run, get_indices_detections, pySample,
      augment_loop, get_destination, get_destination_go, move_pixel, ilocGet,
      ilocSet, inRangeB, getCell, setCell, rows, cols, detThreshold, directions,
      mkRng, rngCollide, List.range_succ, List.filterMap_cons, Except.map, h2]
  · norm_num [detCount, detThreshold]
  · norm_num [detCount, detThreshold]

/-- C3 amended: the count of cells above the detection threshold is not
conserved exactly — two relocations of one call can collide on the same
destination, merging two detections into one.  What holds instead is that the
count never increases: for every rectangular grid, factor and random stream, a
successful `augment_trajectory` call returns a grid with at most as many
detections as the input (equality whenever the applied relocations have
pairwise-distinct destinations). -/
theorem c3_detCount_nonincreasing (g : Grid) (f : ℚ) (rng : Rng) (g' : Grid)
    (hrect : Rect g) (h : augment_trajectory g f rng = .ok g') :
    detCount g' ≤ detCount g := by
  unfold augment_trajectory at h
  cases hrun : augment_run g f rng with
  | error e => rw [hrun] at h; simp [Except.map] at h
  | ok p =>
    rw [hrun] at h
    obtain ⟨g2, tr⟩ := p
    simp only [Except.map, Except.ok.injEq] at h
    subst h
    simp only [augment_run] at hrun
    cases hs : pySample rng.sampleChoice (get_indices_detections g)
        ⌈((get_indices_detections g).length : ℚ) * f⌉ with
    | error e => simp [hs] at hrun
    | ok sampled =>
      simp only [hs] at hrun
      exact (augment_loop_conserve _ _ _ _ _ _ _ hrun hrect).2.1

/-- C3 amended, witness: the count bound applied to the concrete run on
`[[1, 0], [0, 0]]` with factor 1. -/
theorem c3_detCount_nonincreasing_wit :
    detCount [[(0 : ℚ), 1], [0, 0]] ≤ detCount [[(1 : ℚ), 0], [0, 0]] := by
  have hok : augment_trajectory [[(1 : ℚ), 0], [0, 0]] 1 rngRight =
      .ok [[0, 1], [0, 0]] := by
    norm_num [augment_trajectory, augment_run, get_indices_detections, pySample,
      augment_loop, get_destination, get_destination_go, move_pixel, ilocGet,
      ilocSet, inRangeB, getCell, setCell, rows, cols, detThreshold, directions,
      mkRng, rngRight, List.range_succ, List.filterMap_cons, Except.map]
  exact c3_detCount_nonincreasing [[(1 : ℚ), 0], [0, 0]] 1 rngRight
    [[(0 : ℚ), 1], [0, 0]] (by unfold Rect; decide) hok

/-- C4 counterexample: in the run of `augment_trajectory` on `[[0.5, 0, 0.5]]`
with factor 1 and the collision draw stream, the applied relocation trace is
`[((0,0) → (0,1)), ((0,2) → (0,1))]`: two distinct sources, each actually
moving (destination ≠ source), choose the same destination `(0, 1)`, so the
second relocation overwrites the value placed by the first. -/
theorem c4_same_destination_cex :
    rngCollide.Wf ∧
    augment_run [[(1 : ℚ)/2, 0, 1/2]] 1 rngCollide =
      .ok ([[0, 1/2, 0]], [((0, 0), (0, 1)), ((0, 2), (0, 1))]) ∧
    ((0, 0) : Coord) ≠ (0, 2) ∧
    ((0, 1) : Coord) ≠ (0, 0) ∧ ((0, 1) : Coord) ≠ (0, 2) := by
  have h2 : Int.toNat 2 = 2 := by decide
  refine ⟨mkRng_wf _, ?_, by decide, by decide, by decide⟩
  norm_num [augment_run, get_indices_detections, pySample,
    augment_loop, get_destination, get_destination_go, move_pixel, ilocGet,
    ilocSet, inRangeB, getCell, setCell, rows, cols, detThreshold, directions,
    mkRng, rngCollide, List.range_succ, List.filterMap_cons, Except.map, h2]

/-- C4 amended: distinct relocations of one call can share a destination (the
occupancy test consults only the static initial detection list, so a cell
targeted by an earlier move of the same call is still considered free); what
does hold is that every applied relocation either stays put (destination =
source) or targets a cell outside the initial detection set. -/
theorem c4_dest_avoids_static_detections (g : Grid) (f : ℚ) (rng : Rng)
    (g' : Grid) (tr : List (Coord × Coord))
    (h : augment_run g f rng = .ok (g', tr)) :
    ∀ q ∈ tr, q.2 = q.1 ∨ q.2 ∉ get_indices_detections g := by
  simp only [augment_run] at h
  cases hs : pySample rng.sampleChoice (get_indices_detections g)
      ⌈((get_indices_detections g).length : ℚ) * f⌉ with
  | error e => simp [hs] at h
  | ok sampled =>
    simp only [hs] at h
    exact augment_loop_dest_spec _ _ _ _ _ _ _ h

/-- C4 amended, witness: in the concrete run on `[[1, 0], [0, 0]]` with factor
1, the single applied relocation `(0,0) → (0,1)` has its destination outside
the initial detection set. -/
theorem c4_dest_avoids_static_detections_wit :
    ((0, 1) : Coord) = (0, 0) ∨
    ((0, 1) : Coord) ∉ get_indices_detections [[(1 : ℚ), 0], [0, 0]] := by
  have hrun : augment_run [[(1 : ℚ), 0], [0, 0]] 1 rngRight =
      .ok ([[0, 1], [0, 0]], [((0, 0), (0, 1))]) := by
    norm_num [augment_run, get_indices_detections, pySample,
      augment_loop, get_destination, get_destination_go, move_pixel, ilocGet,
      ilocSet, inRangeB, getCell, setCell, rows, cols, detThreshold, directions,
      mkRng, rngRight, List.range_succ, List.filterMap_cons, Except.map]
  exact c4_dest_avoids_static_detections [[(1 : ℚ), 0], [0, 0]] 1 rngRight
    [[(0 : ℚ), 1], [0, 0]] [((0, 0), (0, 1))] hrun ((0, 0), (0, 1))
    (List.mem_singleton.mpr rfl)

/-- C5 counterexample: the claim says `augment_trajectory` fails with an
`InvalidInput` error iff the grid has a zero dimension or the factor is
negative.  The code performs no such validation: a grid with zero rows is
returned unchanged with no error; factor `-1` on `[[1]]` raises the sampler's
`ValueError` (not an `InvalidInput`); and factor `-1/2` on `[[1]]` — a
negative factor — raises nothing at all, because `ceil(1 * (-1/2)) = 0`. -/
theorem c5_no_invalid_input_cex :
    rngRight.Wf ∧
    augment_trajectory ([] : Grid) (3/10) rngRight = .ok [] ∧
    augment_trajectory [[(1 : ℚ)]] (-1) rngRight = .error "ValueError" ∧
    augment_trajectory [[(1 : ℚ)]] (-1/2) rngRight = .ok [[1]] := by
  refine ⟨mkRng_wf _, ?_, ?_, ?_⟩
  · norm_num [augment_trajectory, augment_run, get_indices_detections, pySample,
      augment_loop, getCell, rows, cols, detThreshold,
      mkRng, rngRight, List.range_zero, Except.map]
  · have h : ⌈(-1 : ℚ)⌉ = -1 := by decide
    norm_num [augment_trajectory, augment_run, get_indices_detections, pySample,
      augment_loop, getCell, rows, cols, detThreshold, h,
      mkRng, rngRight, List.range_succ, List.filterMap_cons, Except.map]
  · have h : ⌈-((1 : ℚ)/2)⌉ = 0 := by norm_num
    norm_num [augment_trajectory, augment_run, get_indices_detections, pySample,
      augment_loop, getCell, rows, cols, detThreshold, h,
      mkRng, rngRight, List.range_succ, List.filterMap_cons, Except.map]

/-- C6 counterexample: the claim says a factor greater than 1 never makes the
call fail because the sample size is clamped to `|D|`.  The code passes
`ceil(len(indices) * aug_factor)` to `random.sample` unclamped: on `[[1]]`
(one detection) with factor 2 the requested sample size 2 exceeds the
population size 1 and the call fails with the sampler's `ValueError`. -/
theorem c6_factor_gt_one_fails_cex :
    rngRight.Wf ∧
    augment_trajectory [[(1 : ℚ)]] 2 rngRight = .error "ValueError" := by
  refine ⟨mkRng_wf _, ?_⟩
  norm_num [augment_trajectory, augment_run, get_indices_detections, pySample,
    augment_loop, getCell, rows, cols, detThreshold,
    mkRng, rngRight, List.range_succ, List.filterMap_cons, Except.map]

/-- C7: the claim asserts the four directions are examined in a full random
permutation, so the source stays put only if none of the four neighbors is
valid.  The code instead performs four independent draws with replacement
(`random.sample(directions, 1)[0]` inside the loop), contradicting its own
fallback comment "if all position are already a detection pixel, return the
old value": on `[[1, 0]]` the neighbor `(0, 1)` is in bounds and not a
detection, yet a draw stream that happens to pick `(0, -1)` four times makes
`get_destination` give up and return the source, and the grid comes back
unchanged. -/
theorem c7_draws_with_replacement_miss_valid_neighbor :
    rngLeft.Wf ∧
    get_destination [[(1 : ℚ), 0]] (0, 0) [(0, 0)] rngLeft.draw 0 = ((0, 0), 4) ∧
    inRangeB [[(1 : ℚ), 0]] (0, 1) = true ∧
    ((0, 1) : Coord) ∉ [((0, 0) : Coord)] ∧
    augment_trajectory [[(1 : ℚ), 0]] 1 rngLeft = .ok [[1, 0]] := by
  refine ⟨mkRng_wf _, ?_, by decide, by decide, ?_⟩
  · norm_num [get_destination, get_destination_go, rows, cols, directions,
      mkRng, rngLeft]
  · norm_num [augment_trajectory, augment_run, get_indices_detections, pySample,
      augment_loop, get_destination, get_destination_go, move_pixel, ilocGet,
      ilocSet, inRangeB, getCell, setCell, rows, cols, detThreshold, directions,
      mkRng, rngLeft, List.range_succ, List.filterMap_cons, Except.map]

/-- C5 amended: `augment_trajectory` performs no `InvalidInput` validation.
Given a well-formed random stream, a grid with zero rows or zero columns is
returned unchanged with no error, for every factor (the detection scan of an
empty grid finds nothing, the sample is empty, and no move is attempted); the
only failure a negative factor can cause is the sampler's `ValueError`, and
only when `ceil(|D| * factor) < 0`. -/
theorem c5_zero_dim_returns_unchanged (g : Grid) (f : ℚ) (rng : Rng)
    (hw : rng.Wf) (hdim : rows g = 0 ∨ cols g = 0) :
    augment_trajectory g f rng = .ok g := by
  have hidx : get_indices_detections g = [] := by
    rcases hdim with h | h <;> simp [get_indices_detections, h]
  have hs : rng.sampleChoice [] 0 = [] :=
    List.length_eq_zero.mp (hw.length_sampleChoice [] 0 (Nat.zero_le _))
  have hsh : rng.shuffleFn [] = [] := (hw.perm_shuffleFn []).eq_nil
  simp [augment_trajectory, augment_run, hidx, pySample, hs, hsh, augment_loop,
    Except.map]

/-- C5 amended, witness: the zero-dimension theorem applied to the 1×0 grid
`[[]]` with factor 1. -/
theorem c5_zero_dim_returns_unchanged_wit :
    augment_trajectory ([[]] : Grid) 1 rngRight = .ok [[]] :=
  c5_zero_dim_returns_unchanged [[]] 1 rngRight (mkRng_wf _) (Or.inr rfl)

/-- C6 amended: no clamping is performed — whenever the requested sample size
`ceil(|D| * factor)` strictly exceeds the population size `|D|` (in particular
for every factor above 1 on a grid with at least one detection),
`augment_trajectory` fails with the sampler's `ValueError` instead of
processing a clamped sample. -/
theorem c6_unclamped_sample_size_fails (g : Grid) (f : ℚ) (rng : Rng)
    (hk : ((get_indices_detections g).length : ℤ) <
      ⌈((get_indices_detections g).length : ℚ) * f⌉) :
    augment_trajectory g f rng = .error "ValueError" := by
  simp [augment_trajectory, augment_run, pySample, hk, Except.map]

/-- C6 amended, witness: on the grid `[[1, 1]]` (two detections) with factor
`3/2` the requested size `ceil(2 * 3/2) = 3` exceeds the population 2 and the
call fails. -/
theorem c6_unclamped_sample_size_fails_wit :
    augment_trajectory [[(1 : ℚ), 1]] (3/2) rngRight = .error "ValueError" :=
  c6_unclamped_sample_size_fails [[(1 : ℚ), 1]] (3/2) rngRight (by
    norm_num [get_indices_detections, rows, cols, getCell, detThreshold,
      List.range_succ, List.filterMap_cons])

/-- C8: no-op on factor 0 — for every grid and well-formed random stream,
`augment_trajectory(grid, 0)` succeeds and returns the grid unchanged:
`ceil(|D| * 0) = 0`, the sample is empty, and no cell is written. -/
theorem c8_factor_zero_noop (g : Grid) (rng : Rng) (hw : rng.Wf) :
    augment_trajectory g 0 rng = .ok g := by
  have hs : rng.sampleChoice (get_indices_detections g) 0 = [] :=
    List.length_eq_zero.mp (hw.length_sampleChoice _ 0 (Nat.zero_le _))
  have hsh : rng.shuffleFn [] = [] := (hw.perm_shuffleFn []).eq_nil
  have hlt : ¬ (((get_indices_detections g).length : ℤ) < 0) :=
    not_lt.mpr (Int.natCast_nonneg _)
  simp [augment_trajectory, augment_run, pySample, hs, hsh, hlt, augment_loop,
    Except.map]

/-- C8 witness: the factor-0 theorem applied to `[[1, 0]]`. -/
theorem c8_factor_zero_noop_wit :
    augment_trajectory [[(1 : ℚ), 0]] 0 rngRight = .ok [[1, 0]] :=
  c8_factor_zero_noop [[(1 : ℚ), 0]] rngRight (mkRng_wf _)

/-- C9: determinism under a fixed pseudo-random state — two calls of
`augment_trajectory` with the same random stream, the same grid contents, and
the same factor produce identical results (the embedding makes the random
state an explicit input, and the function is deterministic in it). -/
theorem c9_deterministic_given_seed (g1 g2 : Grid) (f1 f2 : ℚ) (r1 r2 : Rng)
    (hg : g1 = g2) (hf : f1 = f2) (hr : r1 = r2) :
    augment_trajectory g1 f1 r1 = augment_trajectory g2 f2 r2 := by
  subst hg; subst hf; subst hr; rfl

/-- C9 witness: the determinism theorem applied at a concrete grid, factor and
random stream. -/
theorem c9_deterministic_given_seed_wit :
    augment_trajectory [[(1 : ℚ), 0]] 1 rngRight =
      augment_trajectory [[(1 : ℚ), 0]] 1 rngRight :=
  c9_deterministic_given_seed [[(1 : ℚ), 0]] [[(1 : ℚ), 0]] 1 1 rngRight rngRight
    rfl rfl rfl

/-- C10: frame property — in every completed `augment_trajectory` call, a cell
that is neither the source nor the destination of any applied relocation holds
exactly its original value in the returned grid (only sampled sources, set to
0, and their chosen destinations, set to the moved value, are ever written). -/
theorem c10_untouched_cells_unchanged (g : Grid) (f : ℚ) (rng : Rng)
    (g' : Grid) (tr : List (Coord × Coord))
    (h : augment_run g f rng = .ok (g', tr)) (r c : ℕ)
    (hq : ∀ q ∈ tr, q.1 ≠ ((r : ℤ), (c : ℤ)) ∧ q.2 ≠ ((r : ℤ), (c : ℤ))) :
    getCell g' r c = getCell g r c := by
  simp only [augment_run] at h
  cases hs : pySample rng.sampleChoice (get_indices_detections g)
      ⌈((get_indices_detections g).length : ℚ) * f⌉ with
  | error e => simp [hs] at h
  | ok sampled =>
    simp only [hs] at h
    exact augment_loop_frame _ _ _ _ _ _ _ h r c hq

/-- C10 witness: in the concrete run on `[[1, 0], [0, 0]]` with factor 1, the
relocation trace is `[(0,0) → (0,1)]` and the untouched cell `(1, 0)` keeps
its value. -/
theorem c10_untouched_cells_unchanged_wit :
    getCell [[(0 : ℚ), 1], [0, 0]] 1 0 = getCell [[(1 : ℚ), 0], [0, 0]] 1 0 := by
  have hrun : augment_run [[(1 : ℚ), 0], [0, 0]] 1 rngRight =
      .ok ([[0, 1], [0, 0]], [((0, 0), (0, 1))]) := by
    norm_num [augment_run, get_indices_detections, pySample,
      augment_loop, get_destination, get_destination_go, move_pixel, ilocGet,
      ilocSet, inRangeB, getCell, setCell, rows, cols, detThreshold, directions,
      mkRng, rngRight, List.range_succ, List.filterMap_cons, Except.map]
  exact c10_untouched_cells_unchanged [[(1 : ℚ), 0], [0, 0]] 1 rngRight
    [[(0 : ℚ), 1], [0, 0]] [((0, 0), (0, 1))] hrun 1 0 (by decide)

end PersonCounting
